import Mathlib

/-!
Verification of the GamesmanOne HTTP gateway (`src/server.py`) and the
offline binary-to-hex conversion script (`src/src/games/quixo/convert.py`).

The Python sources are shallowly embedded:

* `Shlex.split` models `shlex.split` in POSIX mode with `whitespace_split`
  enabled and comments disabled, exactly as `shlex.split(command)` behaves
  in CPython: a character-by-character state machine over the input with
  states for "between tokens", "inside a word", "inside single quotes",
  "inside double quotes", and the two escape states.  An unterminated
  quote or a trailing escape character raises `ValueError` in CPython;
  the model returns `none` there.
* `Server.run_command` models `run_command`: the child process is an
  explicit oracle `ex : List String → ExecOutcome` mapping the argument
  vector to either a completed process (exit code, stdout, stderr) or a
  launch failure (`FileNotFoundError`, `PermissionError`, ...).  Only the
  `subprocess.CalledProcessError` path (non-zero exit, because of
  `check=True`) is caught; every other failure is a `Fault` value that
  propagates out through `Except`.
* `Server.getstart` / `Server.query` model the two Flask route handlers,
  building their command strings by interpolation just as the f-strings do.
* `Convert.pieces` models the global scan of `re.sub(r'0b[01]+', f, s)`:
  the input is decomposed left to right into unmatched characters and
  leftmost, greedily-maximal matches of `0b[01]+`; `Convert.convertSub`
  replaces each match by `hex(int(match, 2))` and keeps everything else.
* `Json.isValidJson` is an executable RFC 8259 validity checker used to
  settle the spec's statements about the error body's (in)validity as JSON.
-/

namespace GamesmanOne

/-! ## Model of `shlex.split` (POSIX mode, whitespace_split, no comments) -/

namespace Shlex

inductive Mode where
  | between | word | squote | dquote | escWord | escDquote
  deriving DecidableEq

/-- Lexer state: current mode, current token (reversed), completed tokens
(most recent first). -/
structure LexSt where
  mode : Mode
  cur : List Char
  toks : List (List Char)
  deriving DecidableEq

/-- The `shlex.whitespace` characters. -/
def isWs (c : Char) : Bool := c = ' ' || c = '\t' || c = '\r' || c = '\n'

/-- One step of the CPython `shlex.read_token` state machine in POSIX mode
with `whitespace_split = True` and comment characters disabled. -/
def step (st : LexSt) (c : Char) : LexSt :=
  match st.mode with
  | .between =>
    if isWs c then st
    else if c = '\'' then { st with mode := .squote }
    else if c = '"' then { st with mode := .dquote }
    else if c = '\\' then { st with mode := .escWord }
    else { st with mode := .word, cur := [c] }
  | .word =>
    if isWs c then { mode := .between, cur := [], toks := st.cur.reverse :: st.toks }
    else if c = '\'' then { st with mode := .squote }
    else if c = '"' then { st with mode := .dquote }
    else if c = '\\' then { st with mode := .escWord }
    else { st with cur := c :: st.cur }
  | .squote =>
    if c = '\'' then { st with mode := .word } else { st with cur := c :: st.cur }
  | .dquote =>
    if c = '"' then { st with mode := .word }
    else if c = '\\' then { st with mode := .escDquote }
    else { st with cur := c :: st.cur }
  | .escWord => { st with mode := .word, cur := c :: st.cur }
  | .escDquote =>
    if c = '"' || c = '\\' then { st with mode := .dquote, cur := c :: st.cur }
    else { st with mode := .dquote, cur := c :: '\\' :: st.cur }

/-- Model of `shlex.split`.  `none` models the `ValueError` CPython raises
on an unterminated quote ("No closing quotation") or a trailing escape
character ("No escaped character"). -/
def split (s : String) : Option (List String) :=
  let st := s.data.foldl step ⟨.between, [], []⟩
  match st.mode with
  | .between => some (st.toks.reverse.map String.mk)
  | .word => some ((st.cur.reverse :: st.toks).reverse.map String.mk)
  | _ => none

/-- A character that `shlex.split` passes through verbatim inside a word:
not whitespace, not a quote, not the escape character.  Shell
metacharacters such as `;` and `|` are plain in this sense. -/
def plainChar (c : Char) : Bool :=
  !isWs c && c ≠ '\'' && c ≠ '"' && c ≠ '\\'

end Shlex

/-! ## Model of `src/server.py` -/

namespace Server

/-- Line 7-8 of `server.py`:
`return "{ \"error\": \"" + message + "\" }"` — literal concatenation,
no escaping of `message`. -/
def build_error_response (message : String) : String :=
  "\x7b \"error\": \"" ++ message ++ "\" \x7d"

/-- Observable behaviour of one `subprocess.run` invocation on a given
argument vector: either the child ran to completion (exit code, captured
stdout, captured stderr), or the launch itself failed
(`FileNotFoundError`, `PermissionError`, ...). -/
inductive ExecOutcome where
  | completed (exitCode : Nat) (stdout stderr : String)
  | launchFailure (msg : String)

/-- An unhandled fault escaping `run_command`: either `shlex.split` raised
`ValueError`, or the process launch failed. -/
inductive Fault where
  | splitError
  | launchError (msg : String)
  deriving DecidableEq

/-- Lines 10-17 of `server.py`.  `ex` is the child-process oracle.
`subprocess.run(shlex.split(command), check=True, ...)` raises
`CalledProcessError` on a non-zero exit code, and only that exception is
caught (turned into `build_error_response e.stderr`); a `ValueError` from
`shlex.split` or an `OSError` from the launch propagates. -/
def run_command (ex : List String → ExecOutcome) (command : String) :
    Except Fault String :=
  match Shlex.split command with
  | none => .error .splitError
  | some argv =>
    match ex argv with
    | .launchFailure m => .error (.launchError m)
    | .completed 0 stdout _ => .ok stdout
    | .completed (_ + 1) _ stderr => .ok (build_error_response stderr)

/-- The f-string of line 21: `f"bin/gamesman getstart {game_name} {variant_id}"`. -/
def getstart_command (game_name variant_id : String) : String :=
  "bin/gamesman getstart " ++ game_name ++ " " ++ variant_id

/-- Route handler for `/<game_name>/<variant_id>/` (lines 19-21). -/
def getstart (ex : List String → ExecOutcome) (game_name variant_id : String) :
    Except Fault String :=
  run_command ex (getstart_command game_name variant_id)

/-- The f-string of line 25: `f"bin/gamesman query -- {game_name} {variant_id} {position}"`. -/
def query_command (game_name variant_id position : String) : String :=
  "bin/gamesman query -- " ++ game_name ++ " " ++ variant_id ++ " " ++ position

/-- Route handler for `/<game_name>/<variant_id>/<position>` (lines 23-25). -/
def query (ex : List String → ExecOutcome) (game_name variant_id position : String) :
    Except Fault String :=
  run_command ex (query_command game_name variant_id position)

/-- An HTTP response as seen by the client. -/
structure Response where
  status : Nat
  body : String
  deriving DecidableEq

/-- A routed request: the two registered URL patterns, or any other path. -/
inductive Route where
  | patternA (game_name variant_id : String)
  | patternB (game_name variant_id position : String)
  | unmatched
  deriving DecidableEq

/-- Modelled from the spec: the Flask/waitress framework layer, which is
not part of this repository's sources.  A handler returning a string
yields that string as the body with the framework's default status 200
(the handlers never set a status); an exception escaping a handler
surfaces as a generic server error (500); a path matching no registered
route gets the framework's default not-found response (404). -/
def serve (ex : List String → ExecOutcome) : Route → Response
  | .patternA g v =>
    match getstart ex g v with
    | .ok body => ⟨200, body⟩
    | .error _ => ⟨500, "Internal Server Error"⟩
  | .patternB g v p =>
    match query ex g v p with
    | .ok body => ⟨200, body⟩
    | .error _ => ⟨500, "Internal Server Error"⟩
  | .unmatched => ⟨404, "Not Found"⟩

/-- Serving a sequence of requests: each handler invocation is independent
(the application holds no mutable state between requests). -/
def serveAll (ex : List String → ExecOutcome) (reqs : List Route) : List Response :=
  reqs.map (serve ex)

end Server

/-! ## Executable RFC 8259 JSON validity checker -/

namespace Json

def isWsJ (c : Char) : Bool := c = ' ' || c = '\t' || c = '\n' || c = '\r'

def skipWs (l : List Char) : List Char := l.dropWhile isWsJ

def isHexDigitJ (c : Char) : Bool :=
  ('0' ≤ c && c ≤ '9') || ('a' ≤ c && c ≤ 'f') || ('A' ≤ c && c ≤ 'F')

/-- Parse the body of a JSON string after the opening quote; returns the
input remaining after the closing quote. -/
def stringBody : List Char → Option (List Char)
  | [] => none
  | '"' :: rest => some rest
  | '\\' :: e :: rest =>
    if e = '"' || e = '\\' || e = '/' || e = 'b' || e = 'f' ||
       e = 'n' || e = 'r' || e = 't' then
      stringBody rest
    else if e = 'u' then
      match rest with
      | a :: b :: c :: d :: rest' =>
        if isHexDigitJ a && isHexDigitJ b && isHexDigitJ c && isHexDigitJ d then
          stringBody rest'
        else none
      | _ => none
    else none
  | c :: rest => if 32 ≤ c.toNat then stringBody rest else none

/-- Parse one-or-more decimal digits, returning the remaining input. -/
def digits1 : List Char → Option (List Char)
  | [] => none
  | c :: rest => if c.isDigit then some (rest.dropWhile Char.isDigit) else none

/-- Fraction and exponent parts of a JSON number (each optional). -/
def fracExp (l : List Char) : Option (List Char) := do
  let l1 ← match l with
    | '.' :: r => digits1 r
    | _ => some l
  match l1 with
  | 'e' :: r | 'E' :: r =>
    match r with
    | '+' :: r2 => digits1 r2
    | '-' :: r2 => digits1 r2
    | r2 => digits1 r2
  | _ => some l1

/-- Parse a JSON number, returning the remaining input. -/
def number (l : List Char) : Option (List Char) :=
  let l1 := match l with
    | '-' :: r => r
    | _ => l
  match l1 with
  | '0' :: r => fracExp r
  | c :: _ =>
    if c.isDigit then
      match digits1 l1 with
      | some r => fracExp r
      | none => none
    else none
  | [] => none

inductive PMode where
  | value | members | elements

/-- Fueled recursive-descent parser for a JSON value.  `PMode.value`
expects a value (leading whitespace already skipped); `PMode.members`
expects the members of an object after `{` up to and including `}`;
`PMode.elements` likewise for an array.  Returns the remaining input. -/
def parseJ : Nat → PMode → List Char → Option (List Char)
  | 0, _, _ => none
  | fuel + 1, .value, l =>
    match l with
    | '\x7b' :: rest =>
      (match skipWs rest with
       | '\x7d' :: r2 => some r2
       | r1 => parseJ fuel .members r1)
    | '[' :: rest =>
      (match skipWs rest with
       | ']' :: r2 => some r2
       | r1 => parseJ fuel .elements r1)
    | '"' :: rest => stringBody rest
    | 't' :: 'r' :: 'u' :: 'e' :: rest => some rest
    | 'f' :: 'a' :: 'l' :: 's' :: 'e' :: rest => some rest
    | 'n' :: 'u' :: 'l' :: 'l' :: rest => some rest
    | l => number l
  | fuel + 1, .members, l =>
    match l with
    | '"' :: rest => do
      let r1 ← stringBody rest
      match skipWs r1 with
      | ':' :: r2 => do
        let r3 ← parseJ fuel .value (skipWs r2)
        match skipWs r3 with
        | ',' :: r4 =>
          (match skipWs r4 with
           | '"' :: r5 => parseJ fuel .members ('"' :: r5)
           | _ => none)
        | '\x7d' :: r4 => some r4
        | _ => none
      | _ => none
    | _ => none
  | fuel + 1, .elements, l => do
    let r1 ← parseJ fuel .value l
    match skipWs r1 with
    | ',' :: r2 => parseJ fuel .elements (skipWs r2)
    | ']' :: r2 => some r2
    | _ => none

/-- A string is valid JSON when it is exactly one JSON value surrounded by
optional whitespace. -/
def isValidJson (s : String) : Bool :=
  match parseJ (s.length + 1) .value (skipWs s.data) with
  | some r => (skipWs r).isEmpty
  | none => false

end Json

/-! ## Model of `src/src/games/quixo/convert.py` -/

namespace Convert

/-- A character matched by the character class `[01]`. -/
def isBit (c : Char) : Bool := c = '0' || c = '1'

/-- One piece of the `re.sub` decomposition of the input: a character not
belonging to any match, or the `[01]+` digits of one match of `0b[01]+`
(the matched text is `0b` followed by `bits`). -/
inductive Piece where
  | lit (c : Char)
  | bin (bits : List Char)
  deriving DecidableEq

/-- Value of a string of binary digits, as `int(_, 2)` computes it. -/
def binValue (bits : List Char) : Nat :=
  bits.foldl (fun a c => 2 * a + (if c = '1' then 1 else 0)) 0

/-- Python `int(s, 2)` on the matched text: base 2 with an optional `0b`
prefix accepted. -/
def pyIntBase2 (s : List Char) : Nat :=
  match s with
  | '0' :: 'b' :: rest => binValue rest
  | s => binValue s

/-- Python `hex` on a natural number: `0x` followed by lowercase
hexadecimal digits (and `hex(0) = "0x0"`). -/
def pyHex (n : Nat) : List Char := '0' :: 'x' :: Nat.toDigits 16 n

/-- Lines 16-19 of `convert.py`: the replacement callback
`hex(int(match.group(0), 2))` applied to the matched text. -/
def binary_to_hex (matched : List Char) : List Char := pyHex (pyIntBase2 matched)

/-- The global scan of `re.sub(r'0b[01]+', _, content)`: the input is cut
into single unmatched characters and leftmost, non-overlapping matches of
`0b[01]+` whose `[01]+` part is greedy (maximal). -/
def pieces : List Char → List Piece
  | [] => []
  | '0' :: 'b' :: c :: rest =>
    if isBit c then
      Piece.bin (c :: rest.takeWhile isBit) :: pieces (rest.dropWhile isBit)
    else
      Piece.lit '0' :: Piece.lit 'b' :: pieces (c :: rest)
  | c :: rest => Piece.lit c :: pieces rest
termination_by l => l.length
decreasing_by
  · have := (List.dropWhile_sublist (l := rest) isBit).length_le
    simp
    omega
  · simp
  · simp

/-- The text a piece stands for in the original input. -/
def origOf : Piece → List Char
  | .lit c => [c]
  | .bin bits => '0' :: 'b' :: bits

/-- The text a piece contributes to the rewritten output: unmatched
characters are kept, matches go through the replacement callback. -/
def replOf : Piece → List Char
  | .lit c => [c]
  | .bin bits => binary_to_hex ('0' :: 'b' :: bits)

/-- Line 22 of `convert.py`:
`re.sub(binary_pattern, binary_to_hex, content)`. -/
def convertSub (l : List Char) : List Char := (pieces l).flatMap replOf

/-- Lines 8-26 of `convert.py`, over an explicit filesystem
`fs : path → Option contents`: read `file_path` (a missing file is an
uncaught `FileNotFoundError`, modelled as `none`), apply the substitution
to its contents, and write the result back to the same path. -/
def convert_binary_to_hex (fs : String → Option String) (file_path : String) :
    Option (String → Option String) :=
  match fs file_path with
  | none => none
  | some content =>
    some (fun p =>
      if p = file_path then some (String.mk (convertSub content.data)) else fs p)

/-- Line 29 of `convert.py`: `file_path = 'quixo.c'`. -/
def file_path : String := "quixo.c"

/-- Line 30 of `convert.py`: the script's single action,
`convert_binary_to_hex(file_path)`. -/
def runScript (fs : String → Option String) : Option (String → Option String) :=
  convert_binary_to_hex fs file_path

/-- Lowercase hexadecimal digit, as produced by Python's `hex`. -/
def isLowerHexDigit (c : Char) : Bool :=
  ('0' ≤ c && c ≤ '9') || ('a' ≤ c && c ≤ 'f')

/-- Numeric value of one lowercase hexadecimal digit. -/
def hexDigitVal (c : Char) : Nat :=
  if '0' ≤ c ∧ c ≤ '9' then c.toNat - '0'.toNat
  else if 'a' ≤ c ∧ c ≤ 'f' then c.toNat - 'a'.toNat + 10
  else 0

/-- Value denoted by a big-endian string of hexadecimal digits. -/
def hexValue (ds : List Char) : Nat :=
  ds.foldl (fun a c => 16 * a + hexDigitVal c) 0

/-- Right-maximality of every match in a piece list: the original text
following each match never starts with a further binary digit, so no
match could have been extended (the `[01]+` part is greedy). -/
def binPieceMaximal : List Piece → Bool
  | [] => true
  | Piece.lit _ :: rest => binPieceMaximal rest
  | Piece.bin _ :: rest =>
    (match rest.flatMap origOf with
     | [] => true
     | c :: _ => !isBit c) && binPieceMaximal rest

end Convert

/-! ## Lemmas about the `shlex.split` model -/

theorem step_word_plain {c : Char} (hc : Shlex.plainChar c = true)
    (cur : List Char) (toks : List (List Char)) :
    Shlex.step ⟨.word, cur, toks⟩ c = ⟨.word, c :: cur, toks⟩ := by
  simp only [Shlex.plainChar, Bool.and_eq_true, Bool.not_eq_true',
    decide_eq_true_eq] at hc
  simp [Shlex.step, hc.1.1.1, hc.1.1.2, hc.1.2, hc.2]

theorem step_between_plain {c : Char} (hc : Shlex.plainChar c = true)
    (cur : List Char) (toks : List (List Char)) :
    Shlex.step ⟨.between, cur, toks⟩ c = ⟨.word, [c], toks⟩ := by
  simp only [Shlex.plainChar, Bool.and_eq_true, Bool.not_eq_true',
    decide_eq_true_eq] at hc
  simp [Shlex.step, hc.1.1.1, hc.1.1.2, hc.1.2, hc.2]

theorem step_word_space (cur : List Char) (toks : List (List Char)) :
    Shlex.step ⟨.word, cur, toks⟩ ' ' = ⟨.between, [], cur.reverse :: toks⟩ := by
  simp [Shlex.step, Shlex.isWs]

theorem foldl_step_word (w : List Char) : ∀ cur toks,
    (∀ c ∈ w, Shlex.plainChar c = true) →
    w.foldl Shlex.step ⟨.word, cur, toks⟩ = ⟨.word, w.reverse ++ cur, toks⟩ := by
  induction w with
  | nil => intro cur toks _; simp
  | cons c w ih =>
    intro cur toks h
    rw [List.foldl_cons, step_word_plain (h c (by simp)) cur toks,
      ih (c :: cur) toks (fun c hm => h c (by simp [hm]))]
    simp

theorem foldl_word_block (w : List Char) (toks : List (List Char))
    (h1 : w ≠ []) (h2 : ∀ c ∈ w, Shlex.plainChar c = true) :
    w.foldl Shlex.step ⟨.between, [], toks⟩ = ⟨.word, w.reverse, toks⟩ := by
  cases w with
  | nil => exact absurd rfl h1
  | cons c rest =>
    rw [List.foldl_cons, step_between_plain (h2 c (by simp)) [] toks,
      foldl_step_word rest [c] toks (fun c hm => h2 c (by simp [hm]))]
    simp

theorem mk_data (s : String) : String.mk s.data = s := rfl

/-- Tokenization of the Pattern A command for plain, nonempty path
segments: exactly the four expected tokens, each passed through verbatim. -/
theorem split_getstart (g v : String)
    (hg1 : g.data ≠ []) (hg2 : ∀ c ∈ g.data, Shlex.plainChar c = true)
    (hv1 : v.data ≠ []) (hv2 : ∀ c ∈ v.data, Shlex.plainChar c = true) :
    Shlex.split (Server.getstart_command g v) =
      some ["bin/gamesman", "getstart", g, v] := by
  have hdata : (Server.getstart_command g v).data =
      "bin/gamesman getstart ".data ++ (g.data ++ (' ' :: v.data)) := by
    simp [Server.getstart_command]
  have h0 : ("bin/gamesman getstart ".data).foldl Shlex.step ⟨.between, [], []⟩ =
      ⟨.between, [], ["getstart".data, "bin/gamesman".data]⟩ := by decide
  unfold Shlex.split
  rw [hdata, List.foldl_append, h0, List.foldl_append,
    foldl_word_block g.data _ hg1 hg2, List.foldl_cons, step_word_space,
    List.reverse_reverse,
    foldl_word_block v.data _ hv1 hv2]
  simp [mk_data]

/-- Tokenization of the Pattern B command for plain, nonempty path
segments: exactly the six expected tokens, with `--` third. -/
theorem split_query (g v p : String)
    (hg1 : g.data ≠ []) (hg2 : ∀ c ∈ g.data, Shlex.plainChar c = true)
    (hv1 : v.data ≠ []) (hv2 : ∀ c ∈ v.data, Shlex.plainChar c = true)
    (hp1 : p.data ≠ []) (hp2 : ∀ c ∈ p.data, Shlex.plainChar c = true) :
    Shlex.split (Server.query_command g v p) =
      some ["bin/gamesman", "query", "--", g, v, p] := by
  have hdata : (Server.query_command g v p).data =
      "bin/gamesman query -- ".data ++
        (g.data ++ (' ' :: (v.data ++ (' ' :: p.data)))) := by
    simp [Server.query_command]
  have h0 : ("bin/gamesman query -- ".data).foldl Shlex.step ⟨.between, [], []⟩ =
      ⟨.between, [], ["--".data, "query".data, "bin/gamesman".data]⟩ := by decide
  unfold Shlex.split
  rw [hdata, List.foldl_append, h0, List.foldl_append,
    foldl_word_block g.data _ hg1 hg2, List.foldl_cons, step_word_space,
    List.reverse_reverse, List.foldl_append,
    foldl_word_block v.data _ hv1 hv2, List.foldl_cons, step_word_space,
    List.reverse_reverse,
    foldl_word_block p.data _ hp1 hp2]
  simp [mk_data]

/-! ## Lemmas about the `re.sub` model -/

theorem pieces_cons_ne (c : Char) (rest : List Char)
    (h : ∀ c1 rest1, c = '0' → rest = 'b' :: c1 :: rest1 → False) :
    Convert.pieces (c :: rest) = Convert.Piece.lit c :: Convert.pieces rest := by
  rw [Convert.pieces.eq_def]
  split
  · rename_i heq
    exact absurd heq (by simp)
  · rename_i c1 rest1 heq
    rw [List.cons.injEq] at heq
    exact (h c1 rest1 heq.1 heq.2).elim
  · rename_i c2 rest2 hne heq
    rw [List.cons.injEq] at heq
    rw [heq.1, heq.2]

theorem pieces_orig (l : List Char) :
    (Convert.pieces l).flatMap Convert.origOf = l := by
  induction l using Convert.pieces.induct with
  | case1 => simp [Convert.pieces]
  | case2 c rest h ih =>
    rw [Convert.pieces]
    simp only [if_pos h, List.flatMap_cons, Convert.origOf, ih]
    simp [List.takeWhile_append_dropWhile]
  | case3 c rest h ih =>
    rw [Convert.pieces]
    simp [if_neg h, Convert.origOf, ih]
  | case4 c rest h ih =>
    rw [pieces_cons_ne c rest h]
    simp [Convert.origOf, ih]

theorem pieces_bin_wf (l : List Char) : ∀ bits,
    Convert.Piece.bin bits ∈ Convert.pieces l →
    bits ≠ [] ∧ ∀ c ∈ bits, Convert.isBit c = true := by
  induction l using Convert.pieces.induct with
  | case1 => simp [Convert.pieces]
  | case2 c rest h ih =>
    intro bits hmem
    rw [Convert.pieces, if_pos h, List.mem_cons] at hmem
    rcases hmem with heq | hmem
    · rw [Convert.Piece.bin.injEq] at heq
      subst heq
      refine ⟨by simp, ?_⟩
      intro c2 hc2
      rw [List.mem_cons] at hc2
      rcases hc2 with rfl | hc2
      · exact h
      · exact List.mem_takeWhile_imp hc2
    · exact ih bits hmem
  | case3 c rest h ih =>
    intro bits hmem
    rw [Convert.pieces, if_neg h, List.mem_cons, List.mem_cons] at hmem
    rcases hmem with heq | heq | hmem
    · exact absurd heq (by simp)
    · exact absurd heq (by simp)
    · exact ih bits hmem
  | case4 c rest h ih =>
    intro bits hmem
    rw [pieces_cons_ne c rest h, List.mem_cons] at hmem
    rcases hmem with heq | hmem
    · exact absurd heq (by simp)
    · exact ih bits hmem

theorem dropWhile_head_not_isBit (l : List Char) (c : Char) (r : List Char)
    (h : l.dropWhile Convert.isBit = c :: r) : Convert.isBit c = false := by
  have := List.head?_dropWhile_not Convert.isBit l
  rw [h] at this
  simpa using this

theorem pieces_maximal (l : List Char) :
    Convert.binPieceMaximal (Convert.pieces l) = true := by
  induction l using Convert.pieces.induct with
  | case1 => simp [Convert.pieces, Convert.binPieceMaximal]
  | case2 c rest h ih =>
    rw [Convert.pieces, if_pos h]
    rw [Convert.binPieceMaximal, Bool.and_eq_true]
    refine ⟨?_, ih⟩
    rw [pieces_orig]
    rcases hdrop : rest.dropWhile Convert.isBit with _ | ⟨c2, r2⟩
    · simp
    · simp [dropWhile_head_not_isBit rest c2 r2 hdrop]
  | case3 c rest h ih =>
    rw [Convert.pieces, if_neg h]
    rw [Convert.binPieceMaximal, Convert.binPieceMaximal]
    exact ih
  | case4 c rest h ih =>
    rw [pieces_cons_ne c rest h, Convert.binPieceMaximal]
    exact ih

/-! ## Lemmas about Python's `hex` (via `Nat.toDigits 16`) -/

theorem hexDigitVal_digitChar : ∀ d : Nat, d < 16 →
    Convert.hexDigitVal (Nat.digitChar d) = d ∧
    Convert.isLowerHexDigit (Nat.digitChar d) = true := by decide

theorem toDigitsCore_append (f : Nat) : ∀ (n : Nat) (acc : List Char),
    Nat.toDigitsCore 16 f n acc = Nat.toDigitsCore 16 f n [] ++ acc := by
  induction f with
  | zero => intro n acc; simp [Nat.toDigitsCore]
  | succ f ih =>
    intro n acc
    simp only [Nat.toDigitsCore]
    by_cases h : n / 16 = 0
    · simp [h]
    · simp only [if_neg h]
      rw [ih (n / 16) (Nat.digitChar (n % 16) :: acc),
        ih (n / 16) [Nat.digitChar (n % 16)]]
      simp

theorem hexValue_toDigitsCore (f : Nat) : ∀ n, n < f →
    Convert.hexValue (Nat.toDigitsCore 16 f n []) = n ∧
    ∀ c ∈ Nat.toDigitsCore 16 f n [], Convert.isLowerHexDigit c = true := by
  induction f with
  | zero => intro n h; omega
  | succ f ih =>
    intro n hn
    simp only [Nat.toDigitsCore]
    by_cases h : n / 16 = 0
    · have hlt : n < 16 := by omega
      have hmod : n % 16 = n := Nat.mod_eq_of_lt hlt
      simp only [if_pos h, hmod]
      constructor
      · show Convert.hexValue [Nat.digitChar n] = n
        simp [Convert.hexValue, (hexDigitVal_digitChar n hlt).1]
      · intro c hc
        rw [List.mem_singleton] at hc
        rw [hc]
        exact (hexDigitVal_digitChar n hlt).2
    · have h16 : 16 ≤ n := by
        by_contra hcon
        exact h (Nat.div_eq_of_lt (by omega))
      have hdiv : n / 16 < f := by
        have h1 : n / 16 < n := Nat.div_lt_self (by omega) (by omega)
        omega
      obtain ⟨ihv, ihd⟩ := ih (n / 16) hdiv
      simp only [if_neg h]
      rw [toDigitsCore_append]
      constructor
      · show Convert.hexValue
          (Nat.toDigitsCore 16 f (n / 16) [] ++ [Nat.digitChar (n % 16)]) = n
        rw [Convert.hexValue, List.foldl_append]
        simp only [List.foldl_cons, List.foldl_nil]
        rw [Convert.hexValue] at ihv
        rw [ihv, (hexDigitVal_digitChar (n % 16) (Nat.mod_lt n (by omega))).1]
        omega
      · intro c hc
        rw [List.mem_append] at hc
        rcases hc with hc | hc
        · exact ihd c hc
        · rw [List.mem_singleton] at hc
          rw [hc]
          exact (hexDigitVal_digitChar (n % 16) (Nat.mod_lt n (by omega))).2

theorem hexValue_toDigits (n : Nat) :
    Convert.hexValue (Nat.toDigits 16 n) = n ∧
    ∀ c ∈ Nat.toDigits 16 n, Convert.isLowerHexDigit c = true :=
  hexValue_toDigitsCore (n + 1) n (Nat.lt_succ_self n)

/-! ## Claim theorems -/

/-- Claim C1: for every gameName/variantId pair, a Pattern A request
builds the command `bin/gamesman getstart <gameName> <variantId>` by
direct interpolation and, when the child process exits with code zero,
the HTTP response body equals the child's captured stdout. -/
theorem c1_patternA_stdout (ex : List String → Server.ExecOutcome)
    (g v : String) (argv : List String) (out err : String)
    (hsplit : Shlex.split (Server.getstart_command g v) = some argv)
    (hexec : ex argv = .completed 0 out err) :
    Server.getstart_command g v = "bin/gamesman getstart " ++ g ++ " " ++ v ∧
    Server.getstart ex g v = .ok out ∧
    Server.serve ex (.patternA g v) = ⟨200, out⟩ := by
  have h2 : Server.getstart ex g v = .ok out := by
    unfold Server.getstart Server.run_command
    simp only [hsplit, hexec]
  refine ⟨rfl, h2, ?_⟩
  simp only [Server.serve]
  rw [h2]

/-- Witness for C1: the solver prints `START 25` for `chess` variant `101`
and the response body is exactly that stdout. -/
theorem c1_patternA_stdout_witness :
    Server.getstart_command "chess" "101" =
      "bin/gamesman getstart " ++ "chess" ++ " " ++ "101" ∧
    Server.getstart (fun _ => .completed 0 "START 25\n" "") "chess" "101" =
      .ok "START 25\n" ∧
    Server.serve (fun _ => .completed 0 "START 25\n" "") (.patternA "chess" "101") =
      ⟨200, "START 25\n"⟩ :=
  c1_patternA_stdout _ "chess" "101" ["bin/gamesman", "getstart", "chess", "101"]
    "START 25\n" "" (by decide) rfl

/-- Claim C3: `run_command` catches exactly one failure kind — the child
exiting with a non-zero code, converted into the error body — while a
tokenization error or a launch failure propagates out of `run_command`
as an unhandled fault. -/
theorem c3_propagation (ex : List String → Server.ExecOutcome) (cmd : String) :
    (Shlex.split cmd = none → Server.run_command ex cmd = .error .splitError) ∧
    (∀ argv m, Shlex.split cmd = some argv → ex argv = .launchFailure m →
      Server.run_command ex cmd = .error (.launchError m)) ∧
    (∀ argv out err, Shlex.split cmd = some argv →
      ex argv = .completed 0 out err → Server.run_command ex cmd = .ok out) ∧
    (∀ argv k out err, Shlex.split cmd = some argv →
      ex argv = .completed (k + 1) out err →
      Server.run_command ex cmd = .ok (Server.build_error_response err)) := by
  refine ⟨?_, ?_, ?_, ?_⟩
  · intro h
    unfold Server.run_command
    rw [h]
  · intro argv m h1 h2
    unfold Server.run_command
    simp only [h1, h2]
  · intro argv out err h1 h2
    unfold Server.run_command
    simp only [h1, h2]
  · intro argv k out err h1 h2
    unfold Server.run_command
    simp only [h1, h2]

/-- Witness for C3: a malformed command (unterminated quote) and a launch
failure both propagate as faults, while a non-zero exit is converted. -/
theorem c3_propagation_witness :
    Server.run_command (fun _ => .launchFailure "ENOENT") "bin/gamesman \"oops" =
      .error .splitError ∧
    Server.run_command (fun _ => .launchFailure "ENOENT")
      "bin/gamesman getstart chess 101" = .error (.launchError "ENOENT") ∧
    Server.run_command (fun _ => .completed 2 "" "bad variant")
      "bin/gamesman getstart chess 101" =
      .ok (Server.build_error_response "bad variant") :=
  ⟨(c3_propagation _ _).1 (by decide),
   (c3_propagation _ _).2.1 ["bin/gamesman", "getstart", "chess", "101"]
     "ENOENT" (by decide) rfl,
   (c3_propagation _ _).2.2.2 ["bin/gamesman", "getstart", "chess", "101"]
     1 "" "bad variant" (by decide) rfl⟩

/-- Claim C4: the command string is split by POSIX shell-word-splitting
rules with no shell invoked: the example command yields exactly the four
expected tokens, and for any plain (metacharacters such as `;` and `|`
included) nonempty path segments, the built Pattern A command tokenizes
to exactly `["bin/gamesman", "getstart", gameName, variantId]`, each
segment passed through as one literal token. -/
theorem c4_tokenization (g v : String)
    (hg1 : g.data ≠ []) (hg2 : ∀ c ∈ g.data, Shlex.plainChar c = true)
    (hv1 : v.data ≠ []) (hv2 : ∀ c ∈ v.data, Shlex.plainChar c = true) :
    Shlex.split "bin/gamesman getstart chess 101" =
      some ["bin/gamesman", "getstart", "chess", "101"] ∧
    Shlex.split (Server.getstart_command g v) =
      some ["bin/gamesman", "getstart", g, v] :=
  ⟨by decide, split_getstart g v hg1 hg2 hv1 hv2⟩

/-- Witness for C4: a game name containing the shell metacharacters `;`
and `|` is passed through as a single literal token. -/
theorem c4_tokenization_witness :
    Shlex.split "bin/gamesman getstart chess 101" =
      some ["bin/gamesman", "getstart", "chess", "101"] ∧
    Shlex.split (Server.getstart_command "a;b|c" "101") =
      some ["bin/gamesman", "getstart", "a;b|c", "101"] :=
  c4_tokenization "a;b|c" "101" (by decide) (by decide) (by decide) (by decide)

/-- Claim C5: for every position value, the Pattern B command contains the
`--` separator immediately before the three positional arguments, both as
a string and at the token level, regardless of whether `position` begins
with a dash. -/
theorem c5_separator (g v p : String)
    (hg1 : g.data ≠ []) (hg2 : ∀ c ∈ g.data, Shlex.plainChar c = true)
    (hv1 : v.data ≠ []) (hv2 : ∀ c ∈ v.data, Shlex.plainChar c = true)
    (hp1 : p.data ≠ []) (hp2 : ∀ c ∈ p.data, Shlex.plainChar c = true) :
    Server.query_command g v p =
      "bin/gamesman query -- " ++ (g ++ " " ++ v ++ " " ++ p) ∧
    Shlex.split (Server.query_command g v p) =
      some ["bin/gamesman", "query", "--", g, v, p] := by
  constructor
  · simp [Server.query_command, String.append_assoc]
  · exact split_query g v p hg1 hg2 hv1 hv2 hp1 hp2

/-- Witness for C5: a position beginning with a dash still sits right
after the `--` separator. -/
theorem c5_separator_witness :
    Server.query_command "chess" "101" "-3" =
      "bin/gamesman query -- " ++ ("chess" ++ " " ++ "101" ++ " " ++ "-3") ∧
    Shlex.split (Server.query_command "chess" "101" "-3") =
      some ["bin/gamesman", "query", "--", "chess", "101", "-3"] :=
  c5_separator "chess" "101" "-3" (by decide) (by decide) (by decide)
    (by decide) (by decide) (by decide)

/-- Claim C2 (amended): for every stderr text of a child process exiting
non-zero, the response body equals the literal concatenation of the
prefix, the raw (unescaped) stderr text, and the suffix; for stderr texts
such as `he said "no"` containing a double quote the resulting body is
not valid JSON — although not every quote-containing stderr text yields
an invalid body. -/
theorem c2_error_body_literal (ex : List String → Server.ExecOutcome)
    (cmd : String) (argv : List String) (k : Nat) (out err : String)
    (hsplit : Shlex.split cmd = some argv)
    (hexec : ex argv = .completed (k + 1) out err) :
    Server.run_command ex cmd = .ok ("\x7b \"error\": \"" ++ err ++ "\" \x7d") ∧
    Server.build_error_response err = "\x7b \"error\": \"" ++ err ++ "\" \x7d" ∧
    Json.isValidJson (Server.build_error_response "he said \"no\"") = false := by
  refine ⟨?_, rfl, by decide⟩
  unfold Server.run_command
  simp only [hsplit, hexec]
  rfl

/-- Witness for C2 (amended) at the stderr text `he said "no"`. -/
theorem c2_error_body_literal_witness :
    Server.run_command (fun _ => .completed 1 "" "he said \"no\"")
      "bin/gamesman getstart chess 101" =
      .ok ("\x7b \"error\": \"" ++ "he said \"no\"" ++ "\" \x7d") ∧
    Server.build_error_response "he said \"no\"" =
      "\x7b \"error\": \"" ++ "he said \"no\"" ++ "\" \x7d" ∧
    Json.isValidJson (Server.build_error_response "he said \"no\"") = false :=
  c2_error_body_literal _ _ ["bin/gamesman", "getstart", "chess", "101"] 0 ""
    "he said \"no\"" (by decide) rfl

/-- Claim C2 (counterexample): the sub-claim "when the stderr text
contains a double-quote character the body is not valid JSON" is false:
the stderr text `a", "b": "c` contains a double quote, yet the body built
for it is `{ "error": "a", "b": "c" }`, a valid two-member JSON object. -/
theorem c2_quote_not_always_invalid :
    Server.run_command (fun _ => .completed 1 "" "a\", \"b\": \"c")
      "bin/gamesman getstart chess 101" =
      .ok (Server.build_error_response "a\", \"b\": \"c") ∧
    '"' ∈ ("a\", \"b\": \"c").data ∧
    Json.isValidJson (Server.build_error_response "a\", \"b\": \"c") = true :=
  ⟨rfl, by decide, by decide⟩

/-- Claim C6: with the framework layer modelled from the spec, both
handlers yield HTTP 200 on the success path and on the caught
child-failure path (the handler never overrides the default status);
non-200 statuses occur only for unmatched routes (404) or unrecovered
faults (500). -/
theorem c6_status_codes (ex : List String → Server.ExecOutcome) (g v p : String) :
    (∀ b, Server.getstart ex g v = .ok b →
      Server.serve ex (.patternA g v) = ⟨200, b⟩) ∧
    (∀ b, Server.query ex g v p = .ok b →
      Server.serve ex (.patternB g v p) = ⟨200, b⟩) ∧
    (∀ argv k out err, Shlex.split (Server.getstart_command g v) = some argv →
      ex argv = .completed (k + 1) out err →
      Server.serve ex (.patternA g v) = ⟨200, Server.build_error_response err⟩) ∧
    (∀ f, Server.getstart ex g v = .error f →
      (Server.serve ex (.patternA g v)).status = 500) ∧
    (∀ f, Server.query ex g v p = .error f →
      (Server.serve ex (.patternB g v p)).status = 500) ∧
    (Server.serve ex .unmatched).status = 404 := by
  refine ⟨?_, ?_, ?_, ?_, ?_, rfl⟩
  · intro b h
    simp only [Server.serve, h]
  · intro b h
    simp only [Server.serve, h]
  · intro argv k out err h1 h2
    have h3 : Server.getstart ex g v = .ok (Server.build_error_response err) := by
      unfold Server.getstart Server.run_command
      simp only [h1, h2]
    simp only [Server.serve, h3]
  · intro f h
    simp only [Server.serve, h]
  · intro f h
    simp only [Server.serve, h]

/-- Witness for C6: a solver succeeding on the Pattern A request and
failing (exit 3) on the Pattern B request gives 200 for both, and an
unmatched path gives 404. -/
theorem c6_status_codes_witness :
    Server.serve
      (fun argv => if argv.length = 4 then Server.ExecOutcome.completed 0 "ok-body" ""
        else Server.ExecOutcome.completed 3 "" "err-body")
      (.patternA "chess" "101") = ⟨200, "ok-body"⟩ ∧
    Server.serve
      (fun argv => if argv.length = 4 then Server.ExecOutcome.completed 0 "ok-body" ""
        else Server.ExecOutcome.completed 3 "" "err-body")
      (.patternB "chess" "101" "-3") = ⟨200, Server.build_error_response "err-body"⟩ ∧
    (Server.serve
      (fun argv => if argv.length = 4 then Server.ExecOutcome.completed 0 "ok-body" ""
        else Server.ExecOutcome.completed 3 "" "err-body")
      .unmatched).status = 404 :=
  ⟨(c6_status_codes _ "chess" "101" "-3").1 "ok-body" rfl,
   (c6_status_codes _ "chess" "101" "-3").2.1 (Server.build_error_response "err-body") rfl,
   (c6_status_codes _ "chess" "101" "-3").2.2.2.2.2⟩

/-- Claim C7: the conversion script reads the single hardcoded local file
`quixo.c`, applies the one regex substitution replacing every maximal
match of `0b[01]+`, writes the result back to the same file, and leaves
every other file unchanged.  (The script shares no runtime state with the
HTTP server: the server model depends only on its child-process oracle
and route, never on the filesystem.) -/
theorem c7_script_effect (fs : String → Option String) (content : String)
    (hread : fs "quixo.c" = some content) :
    ∃ fs', Convert.runScript fs = some fs' ∧
      fs' "quixo.c" = some (String.mk (Convert.convertSub content.data)) ∧
      ∀ p, p ≠ "quixo.c" → fs' p = fs p := by
  refine ⟨fun p => if p = "quixo.c" then
      some (String.mk (Convert.convertSub content.data)) else fs p, ?_, ?_, ?_⟩
  · unfold Convert.runScript Convert.convert_binary_to_hex Convert.file_path
    rw [hread]
  · simp
  · intro p hp
    simp [hp]

/-- Witness for C7 on a one-file filesystem holding `x = 0b1010;`. -/
theorem c7_script_effect_witness :
    ∃ fs', Convert.runScript
        (fun p => if p = "quixo.c" then some "x = 0b1010;" else none) = some fs' ∧
      fs' "quixo.c" = some (String.mk (Convert.convertSub "x = 0b1010;".data)) ∧
      ∀ p, p ≠ "quixo.c" →
        fs' p = (fun p => if p = "quixo.c" then some "x = 0b1010;" else none) p :=
  c7_script_effect (fun p => if p = "quixo.c" then some "x = 0b1010;" else none)
    "x = 0b1010;" rfl

/-- Claim C8: each handler invocation is deterministic and self-contained:
a batch of requests is served element-wise (surrounding requests never
influence a response), and two occurrences of the same request in a batch
receive identical responses. -/
theorem c8_no_shared_state (ex : List String → Server.ExecOutcome) :
    (∀ pre post r, Server.serveAll ex (pre ++ r :: post) =
      Server.serveAll ex pre ++ Server.serve ex r :: Server.serveAll ex post) ∧
    (∀ reqs (i j : Nat) r0, reqs[i]? = some r0 → reqs[j]? = some r0 →
      (Server.serveAll ex reqs)[i]? = (Server.serveAll ex reqs)[j]?) := by
  constructor
  · intro pre post r
    simp [Server.serveAll]
  · intro reqs i j r0 hi hj
    simp [Server.serveAll, List.getElem?_map, hi, hj]

/-- Witness for C8: a repeated Pattern A request around an unmatched one
receives the same response at both positions. -/
theorem c8_no_shared_state_witness :
    Server.serveAll (fun _ => .completed 0 "S" "")
        ([.unmatched] ++ .patternA "chess" "101" :: [.unmatched]) =
      Server.serveAll (fun _ => .completed 0 "S" "") [.unmatched] ++
        Server.serve (fun _ => .completed 0 "S" "") (.patternA "chess" "101") ::
        Server.serveAll (fun _ => .completed 0 "S" "") [.unmatched] ∧
    (Server.serveAll (fun _ => .completed 0 "S" "")
        [.patternA "chess" "101", .unmatched, .patternA "chess" "101"])[0]? =
      (Server.serveAll (fun _ => .completed 0 "S" "")
        [.patternA "chess" "101", .unmatched, .patternA "chess" "101"])[2]? :=
  ⟨(c8_no_shared_state _).1 [.unmatched] [.unmatched] (.patternA "chess" "101"),
   (c8_no_shared_state _).2 [.patternA "chess" "101", .unmatched, .patternA "chess" "101"]
     0 2 (.patternA "chess" "101") (by decide) (by decide)⟩

/-- Claim C9: every matched binary literal `0b<bits>` is replaced by a
hexadecimal literal — `0x` followed by lowercase hexadecimal digits —
denoting the same integer value as the original binary literal. -/
theorem c9_value_preservation (l bits : List Char)
    (hmem : Convert.Piece.bin bits ∈ Convert.pieces l) :
    ∃ ds : List Char,
      Convert.replOf (Convert.Piece.bin bits) = '0' :: 'x' :: ds ∧
      (∀ c ∈ ds, Convert.isLowerHexDigit c = true) ∧
      Convert.hexValue ds = Convert.binValue bits :=
  ⟨Nat.toDigits 16 (Convert.binValue bits), rfl,
   (hexValue_toDigits (Convert.binValue bits)).2,
   (hexValue_toDigits (Convert.binValue bits)).1⟩

/-- Witness for C9 at the input `0b101` (value 5, replaced by `0x5`). -/
theorem c9_value_preservation_witness :
    ∃ ds : List Char,
      Convert.replOf (Convert.Piece.bin ['1', '0', '1']) = '0' :: 'x' :: ds ∧
      (∀ c ∈ ds, Convert.isLowerHexDigit c = true) ∧
      Convert.hexValue ds = Convert.binValue ['1', '0', '1'] :=
  c9_value_preservation ('0' :: 'b' :: ['1', '0', '1']) ['1', '0', '1']
    (by simp [Convert.pieces, Convert.isBit, List.takeWhile, List.dropWhile])

/-- Claim C10: frame property of the conversion — the pieces of the
`re.sub` scan flatten back to exactly the input; the rewritten file is
exactly the pieces with only the matched literals replaced (unmatched
characters appear unchanged and in the same relative order); every match
is a well-formed `0b[01]+` literal; and every match is maximal (the
original text following it never starts with a further binary digit). -/
theorem c10_frame_property (l : List Char) :
    (Convert.pieces l).flatMap Convert.origOf = l ∧
    Convert.convertSub l = (Convert.pieces l).flatMap Convert.replOf ∧
    (∀ c : Char, Convert.Piece.lit c ∈ Convert.pieces l →
      Convert.replOf (Convert.Piece.lit c) = Convert.origOf (Convert.Piece.lit c)) ∧
    (∀ bits, Convert.Piece.bin bits ∈ Convert.pieces l →
      bits ≠ [] ∧ ∀ c ∈ bits, Convert.isBit c = true) ∧
    Convert.binPieceMaximal (Convert.pieces l) = true :=
  ⟨pieces_orig l, rfl, fun _ _ => rfl, pieces_bin_wf l, pieces_maximal l⟩

/-- Witness for C10 at the input `a0b10c`. -/
theorem c10_frame_property_witness :
    (Convert.pieces "a0b10c".data).flatMap Convert.origOf = "a0b10c".data ∧
    Convert.convertSub "a0b10c".data =
      (Convert.pieces "a0b10c".data).flatMap Convert.replOf ∧
    (∀ c : Char, Convert.Piece.lit c ∈ Convert.pieces "a0b10c".data →
      Convert.replOf (Convert.Piece.lit c) = Convert.origOf (Convert.Piece.lit c)) ∧
    (∀ bits, Convert.Piece.bin bits ∈ Convert.pieces "a0b10c".data →
      bits ≠ [] ∧ ∀ c ∈ bits, Convert.isBit c = true) ∧
    Convert.binPieceMaximal (Convert.pieces "a0b10c".data) = true :=
  c10_frame_property "a0b10c".data

-- CHUNK_MARK

end GamesmanOne
